import Mathlib

/-
Shallow embedding of `src/serial_motor_demo/src/driver.py` (class MotorDriver).

Modelling conventions:
- Python floats are modelled as exact rationals (ℚ); `math.pi` is the exact
  rational value of the IEEE-754 double that Python's `math.pi` denotes.
- Python ints are ℤ.
- Python strings are `List Char`.
- A raisable Python operation returns `Except PyError _`; an uncaught
  exception propagating out of a method is an `.error` result.
- `conn.read(1)` outcomes are modelled by `ReadOutcome`: either a raw byte
  or a timeout (pyserial returns the empty byte string on timeout).
- Mutation of `self` is explicit state passing on `DrvState`.
-/

namespace SerialMotorDemo

/-- Python exceptions that the code under `src/` can raise. -/
inductive PyError where
  | valueError
  | indexError
  | zeroDivisionError
  | unicodeDecodeError
  deriving DecidableEq, Repr

/-- Outcome of one `self.conn.read(1)` call: a raw byte, or a timeout
(pyserial yields zero bytes, which decodes to the empty string). -/
inductive ReadOutcome where
  | timeout
  | byte (b : Nat)
  deriving DecidableEq, Repr

instance {ε α : Type} [DecidableEq ε] [DecidableEq α] : DecidableEq (Except ε α) :=
  fun a b =>
    match a, b with
    | .error e, .error f =>
      if h : e = f then .isTrue (by rw [h]) else .isFalse (fun hh => h (by injection hh))
    | .ok x, .ok y =>
      if h : x = y then .isTrue (by rw [h]) else .isFalse (fun hh => h (by injection hh))
    | .error _, .ok _ => .isFalse (fun hh => Except.noConfusion hh)
    | .ok _, .error _ => .isFalse (fun hh => Except.noConfusion hh)

/-- Model of `bytes([b]).decode("utf-8")` for a single byte: ASCII bytes decode to
their character, a byte ≥ 0x80 raises UnicodeDecodeError. -/
def decode1 (b : Nat) : Except PyError Char :=
  if b < 128 then .ok (Char.ofNat b) else .error .unicodeDecodeError

/-- Python `value.strip(chr(13))`: remove all leading and trailing
carriage-return characters. -/
def stripCR (l : List Char) : List Char :=
  ((l.dropWhile (fun c => c = '\r')).reverse.dropWhile (fun c => c = '\r')).reverse

/-- The per-byte read loop of `MotorDriver.send_command` (driver.py lines
121-128): read one byte at a time; a timeout (empty string) makes the whole
call return the empty string; a carriage return ends the line, which is then
stripped of carriage returns.  The list argument is the finite schedule of
read outcomes the device produces; once it is exhausted every further read
times out. -/
def recvLoop : List ReadOutcome → List Char → Except PyError (List Char)
  | [], _ => .ok []
  | .timeout :: _, _ => .ok []
  | .byte b :: rest, value =>
    match decode1 b with
    | .error e => .error e
    | .ok c =>
      let value' := value ++ [c]
      if c = '\r' then .ok (stripCR value') else recvLoop rest value'

/-- The mutable state of a `MotorDriver` instance (driver.py `__init__`),
restricted to the fields the claims touch, plus the serial wire: `wire` is
the concatenation of all bytes written to `self.conn`. -/
structure DrvState where
  lock : Bool
  wire : List Char
  last_enc_read_time : ℚ
  last_m1_enc : ℤ
  last_m2_enc : ℤ
  m1_spd : ℚ
  m2_spd : ℚ
  encoder_cpr : ℤ
  deriving DecidableEq, Repr

/-- Embeds `MotorDriver.send_command` (driver.py lines 111-136): acquire the mutex,
write the command string plus a carriage-return terminator, run the per-byte
read loop, and release the mutex in a `finally` block on every exit path
(success, timeout return, or exception).  Returns the (possibly failed)
response together with the final state. -/
def send_command (st : DrvState) (cmd : List Char) (reads : List ReadOutcome) :
    Except PyError (List Char) × DrvState :=
  (recvLoop reads [], { st with lock := false, wire := st.wire ++ cmd ++ ['\r'] })

/-- Python `str.split()` with no argument: split on runs of whitespace,
discarding empty pieces. -/
def splitWsAux : List Char → List Char → List (List Char)
  | [], cur => if cur = [] then [] else [cur.reverse]
  | c :: rest, cur =>
    if c.isWhitespace then
      if cur = [] then splitWsAux rest [] else cur.reverse :: splitWsAux rest []
    else splitWsAux rest (c :: cur)

def splitWs (l : List Char) : List (List Char) := splitWsAux l []

/-- Value of a list of decimal digit characters. -/
def digitsVal (l : List Char) : ℤ :=
  l.foldl (fun acc c => 10 * acc + ((c.toNat : ℤ) - 48)) 0

/-- Python `int(tok)` on a whitespace-free token: an optional sign followed
by at least one decimal digit; anything else raises ValueError (`none`). -/
def pyInt : List Char → Option ℤ
  | [] => none
  | '+' :: rest =>
    if rest ≠ [] ∧ rest.all Char.isDigit then some (digitsVal rest) else none
  | '-' :: rest =>
    if rest ≠ [] ∧ rest.all Char.isDigit then some (-digitsVal rest) else none
  | l => if l.all Char.isDigit then some (digitsVal l) else none

/-- Model of `[int(raw_enc) for raw_enc in resp.split()]`: parse every token; the
first non-numeric token raises ValueError. -/
def parseInts : List (List Char) → Except PyError (List ℤ)
  | [] => .ok []
  | tok :: rest =>
    match pyInt tok with
    | none => .error .valueError
    | some n =>
      match parseInts rest with
      | .error e => .error e
      | .ok ns => .ok (n :: ns)

/-- Embeds `MotorDriver.send_encoder_read_command` (driver.py lines 59-63): send
the line `e`, and if the response is non-empty parse each whitespace token
with `int` (an uncaught ValueError on a non-numeric token); an empty
response gives the empty list. -/
def send_encoder_read_command (st : DrvState) (reads : List ReadOutcome) :
    Except PyError (List ℤ) × DrvState :=
  match send_command st ['e'] reads with
  | (.error e, st1) => (.error e, st1)
  | (.ok resp, st1) =>
    if resp ≠ [] then (parseInts (splitWs resp), st1) else (.ok [], st1)

/-- The exact rational value of the IEEE-754 double `math.pi`
(3.14159265358979311599…), i.e. 884279719003555 / 2^48. -/
def math_pi : ℚ := 884279719003555 / 281474976710656

/-- Python float division: raises ZeroDivisionError on a zero divisor
(floats never silently produce Inf/NaN from division by zero in Python). -/
def pyDiv (a b : ℚ) : Except PyError ℚ :=
  if b = 0 then .error .zeroDivisionError else .ok (a / b)

/-- Value `rads_per_ct = 2*math.pi/self.encoder_cpr` (driver.py line 93), as a
pure value (the raisable division itself goes through `pyDiv`). -/
def rad_per_count (cpr : ℤ) : ℚ := 2 * math_pi / (cpr : ℚ)

/-- Value `scaler = self.encoder_cpr / (2*math.pi)` (driver.py line 75). -/
def rate_scaler (cpr : ℤ) : ℚ := (cpr : ℚ) / (2 * math_pi)

/-- The `motor_vels` message published by `check_encoders`. -/
structure MotorVels where
  mot_1_rad_sec : ℚ
  mot_2_rad_sec : ℚ
  deriving DecidableEq, Repr

/-- The `encoder_vals` message published by `check_encoders`. -/
structure EncoderVals where
  mot_1_enc_val : ℤ
  mot_2_enc_val : ℤ
  deriving DecidableEq, Repr

/-- Embeds `MotorDriver.check_encoders` (driver.py lines 80-105): poll the
encoders; on a non-empty parsed response update the stored timestamp,
counters and speeds in program order, and publish the velocity and
raw-counter messages.  Each branch's returned state spells out exactly the
mutations `self` has undergone before that exit (timestamp first, then the
two counters, then the two speeds), so a raise leaves the earlier
mutations in place exactly as in Python.  `.ok none` is the silent skip
(falsy response); `.ok (some _)` carries the two published messages;
`.error _` is an uncaught exception propagating out of the method. -/
def check_encoders (st : DrvState) (now : ℚ) (reads : List ReadOutcome) :
    Except PyError (Option (MotorVels × EncoderVals)) × DrvState :=
  match send_encoder_read_command st reads with
  | (.error e, st1) => (.error e, st1)
  | (.ok resp, st1) =>
    if resp ≠ [] then
      match resp[0]? with
      | none => (.error .indexError, { st1 with last_enc_read_time := now })
      | some r0 =>
        match resp[1]? with
        | none =>
          (.error .indexError,
           { st1 with last_enc_read_time := now, last_m1_enc := r0 })
        | some r1 =>
          match pyDiv (2 * math_pi) (st1.encoder_cpr : ℚ) with
          | .error e =>
            (.error e,
             { st1 with last_enc_read_time := now, last_m1_enc := r0,
                        last_m2_enc := r1 })
          | .ok rads_per_ct =>
            match pyDiv (((r0 - st1.last_m1_enc : ℤ) : ℚ) * rads_per_ct)
                (now - st1.last_enc_read_time) with
            | .error e =>
              (.error e,
               { st1 with last_enc_read_time := now, last_m1_enc := r0,
                          last_m2_enc := r1 })
            | .ok s1 =>
              match pyDiv (((r1 - st1.last_m2_enc : ℤ) : ℚ) * rads_per_ct)
                  (now - st1.last_enc_read_time) with
              | .error e =>
                (.error e,
                 { st1 with last_enc_read_time := now, last_m1_enc := r0,
                            last_m2_enc := r1, m1_spd := s1 })
              | .ok s2 =>
                (.ok (some (⟨s1, s2⟩, ⟨r0, r1⟩)),
                 { st1 with last_enc_read_time := now, last_m1_enc := r0,
                            last_m2_enc := r1, m1_spd := s1, m2_spd := s2 })
    else (.ok none, st1)

/-- Python `int(x)` applied to a float: truncation toward zero. -/
def pyIntTrunc (q : ℚ) : ℤ := if 0 ≤ q then ⌊q⌋ else ⌈q⌉

/-- The inbound `MotorCommand` message. -/
structure MotorCommand where
  is_pwm : Bool
  mot_1_req_rad_sec : ℚ
  mot_2_req_rad_sec : ℚ
  deriving DecidableEq, Repr

/-- The f-string body of `send_pwm_motor_command` / `send_feedback_motor_command`
(driver.py lines 53-57): opcode, the two `int()`-converted values,
space-separated. -/
def format_two_int_cmd (op : Char) (a b : ℤ) : List Char :=
  [op, ' '] ++ (toString a).toList ++ [' '] ++ (toString b).toList

/-- Embeds `MotorDriver.send_pwm_motor_command` (driver.py lines 53-54). -/
def send_pwm_motor_command (st : DrvState) (m1 m2 : ℚ) (reads : List ReadOutcome) :
    Except PyError (List Char) × DrvState :=
  send_command st (format_two_int_cmd 'o' (pyIntTrunc m1) (pyIntTrunc m2)) reads

/-- Embeds `MotorDriver.send_feedback_motor_command` (driver.py lines 56-57). -/
def send_feedback_motor_command (st : DrvState) (m1 m2 : ℚ) (reads : List ReadOutcome) :
    Except PyError (List Char) × DrvState :=
  send_command st (format_two_int_cmd 'm' (pyIntTrunc m1) (pyIntTrunc m2)) reads

/-- Embeds `MotorDriver.motor_command_callback` (driver.py lines 68-78): PWM
commands pass raw values to the `o` command; rate commands are scaled by
`encoder_cpr / (2*math.pi)` before the `m` command.  The response is
discarded by the Python code, so only the resulting state is returned. -/
def motor_command_callback (st : DrvState) (mc : MotorCommand)
    (reads : List ReadOutcome) : DrvState :=
  if mc.is_pwm then
    (send_pwm_motor_command st mc.mot_1_req_rad_sec mc.mot_2_req_rad_sec reads).2
  else
    (send_feedback_motor_command st
      (mc.mot_1_req_rad_sec * rate_scaler st.encoder_cpr)
      (mc.mot_2_req_rad_sec * rate_scaler st.encoder_cpr) reads).2

/-- Encode a Python string as the byte schedule a device answering with
exactly that text would produce. -/
def bytesOf (s : String) : List ReadOutcome :=
  s.toList.map (fun c => ReadOutcome.byte c.toNat)

/-
Interleaving model of `send_command` under `self.mutex` (driver.py lines
43 and 111-136), for the concurrency claims.  Two OS threads — the inbound
command handler (`false`) and the periodic encoder poll (`true`) — each run
one `send_command` call.  A thread's program counter walks through
0 = before `mutex.acquire()`, 1 = lock held / frame not yet written,
2 = frame written / in the per-byte read loop, 3 = read loop exited
(terminator, timeout return, or exception) / before `mutex.release()`,
4 = returned.  `trace` records every byte-level wire access (frame write
or single-byte read) labelled with the thread performing it; the serial
port itself enforces nothing, only the program order and the lock do. -/

/-- How the per-byte read loop of one `send_command` call ends: the
carriage-return terminator, the timeout early return, or an exception
(all are followed by `mutex.release()` via the `finally` block). -/
inductive FinishKind where
  | terminator
  | timedOut
  | exn
  deriving DecidableEq, Repr

/-- Global state of the two-thread system: who holds the mutex, each
thread's program counter, and the wire-access trace. -/
structure Sys where
  lock : Option Bool
  pc : Bool → Nat
  trace : List Bool

/-- Update one thread's program counter. -/
def pcSet (f : Bool → Nat) (t : Bool) (v : Nat) : Bool → Nat :=
  fun u => if u = t then v else f u

/-- One atomic step of the two-thread system running `send_command`. -/
inductive Step : Sys → Sys → Prop where
  | acquire (s : Sys) (t : Bool) : s.lock = none → s.pc t = 0 →
      Step s ⟨some t, pcSet s.pc t 1, s.trace⟩
  | writeFrame (s : Sys) (t : Bool) : s.pc t = 1 →
      Step s ⟨s.lock, pcSet s.pc t 2, s.trace ++ [t]⟩
  | readByte (s : Sys) (t : Bool) : s.pc t = 2 →
      Step s ⟨s.lock, s.pc, s.trace ++ [t]⟩
  | finish (s : Sys) (t : Bool) (k : FinishKind) : s.pc t = 2 →
      Step s ⟨s.lock, pcSet s.pc t 3, s.trace⟩
  | release (s : Sys) (t : Bool) : s.pc t = 3 →
      Step s ⟨none, pcSet s.pc t 4, s.trace⟩

/-- Initial state: lock free, both threads about to call `send_command`,
nothing on the wire. -/
def sysInit : Sys := ⟨none, fun _ => 0, []⟩

/-- States the two-thread system can reach. -/
inductive Reachable : Sys → Prop where
  | init : Reachable sysInit
  | step {s s' : Sys} : Reachable s → Step s s' → Reachable s'

/-- The wire trace consists of (at most) two homogeneous blocks, one per
thread: the two round trips never interleave their wire accesses. -/
def TwoBlocks (l : List Bool) : Prop :=
  ∃ a b, l = List.replicate a true ++ List.replicate b false ∨
         l = List.replicate a false ++ List.replicate b true

/-- Inductive invariant of the two-thread system. -/
structure SysInv (s : Sys) : Prop where
  lockOwn : ∀ t, s.pc t = 1 ∨ s.pc t = 2 ∨ s.pc t = 3 → s.lock = some t
  lockPc : ∀ t, s.lock = some t → s.pc t = 1 ∨ s.pc t = 2 ∨ s.pc t = 3
  pcZero : ∀ t, s.pc t = 0 → t ∉ s.trace
  activeSuffix : ∀ t, s.lock = some t →
    ∃ a b, s.trace = List.replicate a (!t) ++ List.replicate b t
  shape : TwoBlocks s.trace

/-- The counts a rate command embeds in the `m` frame, as the code computes
them (Python `int()` truncation of the scaled requests). -/
def feedback_ints (cpr : ℤ) (r1 r2 : ℚ) : ℤ × ℤ :=
  (pyIntTrunc (r1 * rate_scaler cpr), pyIntTrunc (r2 * rate_scaler cpr))

/-- Modelled from the spec words "calls `set_feedback_counts` with the
rounded-to-integer products": the counts the spec says a rate command
sends (round to nearest). -/
def feedback_ints_spec (cpr : ℤ) (r1 r2 : ℚ) : ℤ × ℤ :=
  (round (r1 * rate_scaler cpr), round (r2 * rate_scaler cpr))

/-- A concrete driver state: lock free, empty wire, last sample (100, 100)
at time 0, speeds 0, 200 counts per revolution. -/
def st100 : DrvState := ⟨false, [], 0, 100, 100, 0, 0, 200⟩

/-- A concrete driver state whose `encoder_cpr` is 0, the default of
`rospy.get_param` in `__init__` (driver.py line 17). -/
def stZeroCpr : DrvState := ⟨false, [], 0, 0, 0, 0, 0, 0⟩

/-- A concrete driver state with last poll timestamp 5, for the
zero-elapsed-time scenario. -/
def stT5 : DrvState := ⟨false, [], 5, 0, 0, 0, 0, 200⟩

/-- A concrete driver state with `encoder_cpr = 10`, for the
truncation-versus-rounding scenario. -/
def stCpr10 : DrvState := ⟨false, [], 0, 0, 0, 0, 0, 10⟩

/-- System state after the poll thread acquires the mutex. -/
def sysA : Sys := ⟨some true, pcSet sysInit.pc true 1, sysInit.trace⟩

/-- System state after the poll thread writes its frame. -/
def sysB : Sys := ⟨sysA.lock, pcSet sysA.pc true 2, sysA.trace ++ [true]⟩

/-- System state after the poll thread's read loop times out. -/
def sysC : Sys := ⟨sysB.lock, pcSet sysB.pc true 3, sysB.trace⟩

/-- System state after the poll thread releases the mutex and returns. -/
def sysD : Sys := ⟨none, pcSet sysC.pc true 4, sysC.trace⟩

/-- System state after the command thread then acquires the mutex. -/
def sysE : Sys := ⟨some false, pcSet sysD.pc false 1, sysD.trace⟩

/-- System state after the command thread writes its frame. -/
def sysF : Sys := ⟨sysE.lock, pcSet sysE.pc false 2, sysE.trace ++ [false]⟩

/-- A list of booleans avoiding `t` is a replication of `!t`. -/
theorem not_mem_eq_replicate_not {t : Bool} :
    ∀ {l : List Bool}, t ∉ l → l = List.replicate l.length (!t)
  | [], _ => rfl
  | x :: xs, h => by
    simp only [List.mem_cons, not_or] at h
    obtain ⟨h1, h2⟩ := h
    have hx : x = !t := by cases t <;> cases x <;> revert h1 <;> decide
    rw [List.length_cons, List.replicate_succ, hx,
        ← not_mem_eq_replicate_not h2]

/-- The inductive invariant holds initially. -/
theorem sysInv_init : SysInv sysInit := by
  refine ⟨?_, ?_, ?_, ?_, ?_⟩
  · intro t ht; simp [sysInit] at ht
  · intro t ht; simp [sysInit] at ht
  · intro t _; simp [sysInit]
  · intro t ht; simp [sysInit] at ht
  · exact ⟨0, 0, Or.inl rfl⟩

/-- The inductive invariant is preserved by every step. -/
theorem sysInv_step {s s' : Sys} (inv : SysInv s) (st : Step s s') : SysInv s' := by
  cases st with
  | acquire t hl hp =>
    refine ⟨?_, ?_, ?_, ?_, inv.shape⟩
    · intro u hu
      by_cases hut : u = t
      · simp [hut]
      · simp only [pcSet, if_neg hut] at hu
        exact absurd (inv.lockOwn u hu) (by simp [hl])
    · intro u hu
      have hut : u = t := by simpa using hu.symm
      subst hut
      simp [pcSet]
    · intro u hu
      by_cases hut : u = t
      · simp [pcSet, hut] at hu
      · simp only [pcSet, if_neg hut] at hu
        exact inv.pcZero u hu
    · intro u hu
      have hut : t = u := by simpa using hu
      subst hut
      have hmem : t ∉ s.trace := inv.pcZero t hp
      exact ⟨s.trace.length, 0, by
        simpa using not_mem_eq_replicate_not hmem⟩
  | writeFrame t hp =>
    have hlock : s.lock = some t := inv.lockOwn t (Or.inl hp)
    have htr := inv.activeSuffix t hlock
    obtain ⟨a, b, htr⟩ := htr
    have htr' : s.trace ++ [t] = List.replicate a (!t) ++ List.replicate (b + 1) t := by
      rw [htr, List.append_assoc, List.replicate_succ']
    refine ⟨?_, ?_, ?_, ?_, ?_⟩
    · intro u hu
      by_cases hut : u = t
      · subst hut; exact hlock
      · simp only [pcSet, if_neg hut] at hu
        have := inv.lockOwn u hu
        rw [hlock] at this
        exact absurd (Option.some_injective _ this.symm) hut
    · intro u hu
      have hut : u = t := (Option.some_injective _ (hlock.symm.trans hu)).symm
      subst hut
      simp [pcSet]
    · intro u hu
      by_cases hut : u = t
      · simp [pcSet, hut] at hu
      · simp only [pcSet, if_neg hut] at hu
        have := inv.pcZero u hu
        simp [List.mem_append, this, hut]
    · intro u hu
      have hut : u = t := (Option.some_injective _ (hlock.symm.trans hu)).symm
      subst hut
      exact ⟨a, b + 1, htr'⟩
    · cases t with
      | false => exact ⟨a, b + 1, Or.inl (by simpa using htr')⟩
      | true => exact ⟨a, b + 1, Or.inr (by simpa using htr')⟩
  | readByte t hp =>
    have hlock : s.lock = some t := inv.lockOwn t (Or.inr (Or.inl hp))
    obtain ⟨a, b, htr⟩ := inv.activeSuffix t hlock
    have htr' : s.trace ++ [t] = List.replicate a (!t) ++ List.replicate (b + 1) t := by
      rw [htr, List.append_assoc, List.replicate_succ']
    refine ⟨?_, ?_, ?_, ?_, ?_⟩
    · intro u hu; exact inv.lockOwn u hu
    · intro u hu; exact inv.lockPc u hu
    · intro u hu
      by_cases hut : u = t
      · subst hut; rw [hp] at hu; exact absurd hu (by simp)
      · have := inv.pcZero u hu
        simp [List.mem_append, this, hut]
    · intro u hu
      have hut : u = t := (Option.some_injective _ (hlock.symm.trans hu)).symm
      subst hut
      exact ⟨a, b + 1, htr'⟩
    · cases t with
      | false => exact ⟨a, b + 1, Or.inl (by simpa using htr')⟩
      | true => exact ⟨a, b + 1, Or.inr (by simpa using htr')⟩
  | finish t k hp =>
    have hlock : s.lock = some t := inv.lockOwn t (Or.inr (Or.inl hp))
    refine ⟨?_, ?_, ?_, ?_, inv.shape⟩
    · intro u hu
      by_cases hut : u = t
      · subst hut; exact hlock
      · simp only [pcSet, if_neg hut] at hu
        exact inv.lockOwn u hu
    · intro u hu
      have hut : u = t := (Option.some_injective _ (hlock.symm.trans hu)).symm
      subst hut
      simp [pcSet]
    · intro u hu
      by_cases hut : u = t
      · simp [pcSet, hut] at hu
      · simp only [pcSet, if_neg hut] at hu
        exact inv.pcZero u hu
    · intro u hu
      exact inv.activeSuffix u hu
  | release t hp =>
    have hlock : s.lock = some t := inv.lockOwn t (Or.inr (Or.inr hp))
    refine ⟨?_, ?_, ?_, ?_, inv.shape⟩
    · intro u hu
      by_cases hut : u = t
      · subst hut; simp [pcSet] at hu
      · simp only [pcSet, if_neg hut] at hu
        have := inv.lockOwn u hu
        rw [hlock] at this
        exact absurd (Option.some_injective _ this.symm) hut
    · intro u hu; exact absurd hu (by simp)
    · intro u hu
      by_cases hut : u = t
      · simp [pcSet, hut] at hu
      · simp only [pcSet, if_neg hut] at hu
        exact inv.pcZero u hu
    · intro u hu; exact absurd hu (by simp)

/-- Every reachable state satisfies the invariant. -/
theorem sysInv_reachable {s : Sys} (h : Reachable s) : SysInv s := by
  induction h with
  | init => exact sysInv_init
  | step _ hst ih => exact sysInv_step ih hst

/-- The poll thread can run one complete round trip. -/
theorem sysD_reachable : Reachable sysD :=
  Reachable.step
    (Reachable.step
      (Reachable.step
        (Reachable.step Reachable.init (Step.acquire sysInit true rfl rfl))
        (Step.writeFrame sysA true rfl))
      (Step.finish sysB true FinishKind.timedOut rfl))
    (Step.release sysC true rfl)

/-- After the poll thread's round trip, the command thread can acquire the
mutex and write its frame. -/
theorem sysF_reachable : Reachable sysF :=
  Reachable.step
    (Reachable.step sysD_reachable (Step.acquire sysD false rfl rfl))
    (Step.writeFrame sysE false rfl)

/-- Running `send_encoder_read_command` only flips the lock and appends the
`e` frame to the wire; every encoder-tracking field is untouched. -/
theorem send_encoder_read_command_state (st : DrvState) (reads : List ReadOutcome) :
    (send_encoder_read_command st reads).2 =
      { st with lock := false, wire := st.wire ++ ['e'] ++ ['\r'] } := by
  unfold send_encoder_read_command send_command
  cases h : recvLoop reads [] with
  | error e => simp
  | ok resp =>
    by_cases hr : resp = [] <;> simp [hr]

/-- When every read before the timeout yields a clean non-terminator byte,
the read loop of `send_command` returns the empty string. -/
theorem recvLoop_timeout (rest : List ReadOutcome) :
    ∀ (pre : List ReadOutcome) (acc : List Char),
      (∀ r ∈ pre, ∃ b, r = ReadOutcome.byte b ∧ b < 128 ∧ Char.ofNat b ≠ '\r') →
      recvLoop (pre ++ ReadOutcome.timeout :: rest) acc = .ok []
  | [], _, _ => rfl
  | r :: pre, acc, h => by
    obtain ⟨b, rfl, hb, hc⟩ := h r (List.mem_cons_self r pre)
    have h' := fun x hx => h x (List.mem_cons_of_mem _ hx)
    simp only [List.cons_append, recvLoop, decode1, if_pos hb]
    rw [if_neg hc]
    exact recvLoop_timeout rest pre (acc ++ [Char.ofNat b]) h'

/-- Evaluation of `check_encoders` when the encoder read itself raised:
the exception propagates and only the lock and wire changed. -/
theorem check_encoders_resp_error (st : DrvState) (now : ℚ) (reads : List ReadOutcome)
    (e : PyError) (h : (send_encoder_read_command st reads).1 = .error e) :
    check_encoders st now reads =
      (.error e, { st with lock := false, wire := st.wire ++ ['e'] ++ ['\r'] }) := by
  have hpair : send_encoder_read_command st reads =
      (Except.error e, { st with lock := false, wire := st.wire ++ ['e'] ++ ['\r'] }) := by
    conv_lhs => rw [← Prod.mk.eta (p := send_encoder_read_command st reads)]
    rw [h, send_encoder_read_command_state]
  unfold check_encoders
  rw [hpair]

/-- Evaluation of `check_encoders` on an empty (falsy) response: the poll
is skipped silently and the encoder state is untouched. -/
theorem check_encoders_resp_empty (st : DrvState) (now : ℚ) (reads : List ReadOutcome)
    (h : (send_encoder_read_command st reads).1 = .ok []) :
    check_encoders st now reads =
      (.ok none, { st with lock := false, wire := st.wire ++ ['e'] ++ ['\r'] }) := by
  have hpair : send_encoder_read_command st reads =
      (Except.ok [], { st with lock := false, wire := st.wire ++ ['e'] ++ ['\r'] }) := by
    conv_lhs => rw [← Prod.mk.eta (p := send_encoder_read_command st reads)]
    rw [h, send_encoder_read_command_state]
  unfold check_encoders
  rw [hpair]
  rfl

/-- Evaluation of `check_encoders` on a single-token response: IndexError
from `resp[1]`, after the timestamp and first counter were updated. -/
theorem check_encoders_one_token (st : DrvState) (now : ℚ) (reads : List ReadOutcome)
    (a : ℤ) (h : (send_encoder_read_command st reads).1 = .ok [a]) :
    check_encoders st now reads =
      (.error .indexError,
       { st with lock := false, wire := st.wire ++ ['e'] ++ ['\r'],
                 last_enc_read_time := now, last_m1_enc := a }) := by
  have hpair : send_encoder_read_command st reads =
      (Except.ok [a], { st with lock := false, wire := st.wire ++ ['e'] ++ ['\r'] }) := by
    conv_lhs => rw [← Prod.mk.eta (p := send_encoder_read_command st reads)]
    rw [h, send_encoder_read_command_state]
  unfold check_encoders
  rw [hpair]
  rfl

/-- Evaluation of `check_encoders` with a zero counts-per-revolution:
`2*math.pi/encoder_cpr` raises ZeroDivisionError after the timestamp and
counters were updated; the speeds are never written. -/
theorem check_encoders_zero_cpr (st : DrvState) (now : ℚ) (reads : List ReadOutcome)
    (a b : ℤ) (rest : List ℤ)
    (h : (send_encoder_read_command st reads).1 = .ok (a :: b :: rest))
    (hcpr : (st.encoder_cpr : ℚ) = 0) :
    check_encoders st now reads =
      (.error .zeroDivisionError,
       { st with lock := false, wire := st.wire ++ ['e'] ++ ['\r'],
                 last_enc_read_time := now, last_m1_enc := a, last_m2_enc := b }) := by
  have hpair : send_encoder_read_command st reads =
      (Except.ok (a :: b :: rest),
       { st with lock := false, wire := st.wire ++ ['e'] ++ ['\r'] }) := by
    conv_lhs => rw [← Prod.mk.eta (p := send_encoder_read_command st reads)]
    rw [h, send_encoder_read_command_state]
  unfold check_encoders
  rw [hpair]
  simp [pyDiv, hcpr]

/-- Evaluation of `check_encoders` with zero elapsed time between polls:
the unguarded velocity division raises ZeroDivisionError after the
timestamp and counters were updated; the speeds are never written. -/
theorem check_encoders_zero_dt (st : DrvState) (now : ℚ) (reads : List ReadOutcome)
    (a b : ℤ) (rest : List ℤ)
    (h : (send_encoder_read_command st reads).1 = .ok (a :: b :: rest))
    (hcpr : (st.encoder_cpr : ℚ) ≠ 0)
    (hdt : now - st.last_enc_read_time = 0) :
    check_encoders st now reads =
      (.error .zeroDivisionError,
       { st with lock := false, wire := st.wire ++ ['e'] ++ ['\r'],
                 last_enc_read_time := now, last_m1_enc := a, last_m2_enc := b }) := by
  have hpair : send_encoder_read_command st reads =
      (Except.ok (a :: b :: rest),
       { st with lock := false, wire := st.wire ++ ['e'] ++ ['\r'] }) := by
    conv_lhs => rw [← Prod.mk.eta (p := send_encoder_read_command st reads)]
    rw [h, send_encoder_read_command_state]
  unfold check_encoders
  rw [hpair]
  simp [pyDiv, hcpr, hdt]

/-- Evaluation of `check_encoders` on a successful poll (at least two
integer tokens, nonzero counts-per-revolution, nonzero elapsed time): the
velocities are the signed count deltas scaled by `rad_per_count` over the
elapsed time, and state and messages carry the new sample. -/
theorem check_encoders_ok (st : DrvState) (now : ℚ) (reads : List ReadOutcome)
    (a b : ℤ) (rest : List ℤ)
    (h : (send_encoder_read_command st reads).1 = .ok (a :: b :: rest))
    (hcpr : (st.encoder_cpr : ℚ) ≠ 0)
    (hdt : now - st.last_enc_read_time ≠ 0) :
    check_encoders st now reads =
      (.ok (some (⟨((a - st.last_m1_enc : ℤ) : ℚ) * rad_per_count st.encoder_cpr /
                     (now - st.last_enc_read_time),
                   ((b - st.last_m2_enc : ℤ) : ℚ) * rad_per_count st.encoder_cpr /
                     (now - st.last_enc_read_time)⟩,
                  ⟨a, b⟩)),
       { st with lock := false, wire := st.wire ++ ['e'] ++ ['\r'],
                 last_enc_read_time := now, last_m1_enc := a, last_m2_enc := b,
                 m1_spd := ((a - st.last_m1_enc : ℤ) : ℚ) * rad_per_count st.encoder_cpr /
                   (now - st.last_enc_read_time),
                 m2_spd := ((b - st.last_m2_enc : ℤ) : ℚ) * rad_per_count st.encoder_cpr /
                   (now - st.last_enc_read_time) }) := by
  have hpair : send_encoder_read_command st reads =
      (Except.ok (a :: b :: rest),
       { st with lock := false, wire := st.wire ++ ['e'] ++ ['\r'] }) := by
    conv_lhs => rw [← Prod.mk.eta (p := send_encoder_read_command st reads)]
    rw [h, send_encoder_read_command_state]
  unfold check_encoders
  rw [hpair]
  simp [pyDiv, hcpr, hdt, rad_per_count]

/-- C1, counterexample: on the malformed encoder line "12 abc" the poll
does not produce a handled ParseError that skips the cycle — `int("abc")`
raises an uncaught ValueError, so `check_encoders` propagates an exception
(the node crashes) instead of returning the silent-skip result. -/
theorem malformed_line_not_handled :
    (check_encoders st100 1 (bytesOf "12 abc\r")).1 = .error .valueError ∧
    (check_encoders st100 1 (bytesOf "12 abc\r")).1 ≠ .ok none := by
  have h : (send_encoder_read_command st100 (bytesOf "12 abc\r")).1 =
      .error .valueError := by decide
  rw [check_encoders_resp_error st100 1 (bytesOf "12 abc\r") _ h]
  exact ⟨rfl, fun hh => Except.noConfusion hh⟩

/-- C1, amended: a non-numeric token makes the poll raise an uncaught
ValueError before any state mutation, and nothing is published; a
single-token line raises IndexError only after the stored timestamp and
first counter were already overwritten; a line with more than two integer
tokens is accepted silently, using the first two. -/
theorem malformed_line_behavior :
    ((check_encoders st100 1 (bytesOf "12 abc\r")).1 = .error .valueError ∧
      (check_encoders st100 1 (bytesOf "12 abc\r")).2.last_enc_read_time =
        st100.last_enc_read_time ∧
      (check_encoders st100 1 (bytesOf "12 abc\r")).2.last_m1_enc = st100.last_m1_enc ∧
      (check_encoders st100 1 (bytesOf "12 abc\r")).2.last_m2_enc = st100.last_m2_enc ∧
      (check_encoders st100 1 (bytesOf "12 abc\r")).2.m1_spd = st100.m1_spd ∧
      (check_encoders st100 1 (bytesOf "12 abc\r")).2.m2_spd = st100.m2_spd) ∧
    ((check_encoders st100 1 (bytesOf "12\r")).1 = .error .indexError ∧
      (check_encoders st100 1 (bytesOf "12\r")).2.last_m1_enc = 12 ∧
      (check_encoders st100 1 (bytesOf "12\r")).2.last_enc_read_time = 1) ∧
    ((check_encoders st100 1 (bytesOf "1 2 3\r")).1 =
      .ok (some (⟨-99 * math_pi / 100, -49 * math_pi / 50⟩, ⟨1, 2⟩))) := by
  have h1 : (send_encoder_read_command st100 (bytesOf "12 abc\r")).1 =
      .error .valueError := by decide
  have h2 : (send_encoder_read_command st100 (bytesOf "12\r")).1 = .ok [12] := by
    decide
  have h3 : (send_encoder_read_command st100 (bytesOf "1 2 3\r")).1 =
      .ok (1 :: 2 :: [3]) := by decide
  rw [check_encoders_resp_error st100 1 (bytesOf "12 abc\r") _ h1,
      check_encoders_one_token st100 1 (bytesOf "12\r") 12 h2,
      check_encoders_ok st100 1 (bytesOf "1 2 3\r") 1 2 [3] h3
        (by norm_num : ((200 : ℤ) : ℚ) ≠ 0) (by norm_num : (1 : ℚ) - 0 ≠ 0)]
  refine ⟨⟨rfl, rfl, rfl, rfl, rfl, rfl⟩, ⟨rfl, rfl, rfl⟩, ?_⟩
  simp only [Except.ok.injEq, Option.some.injEq, Prod.mk.injEq,
    MotorVels.mk.injEq, EncoderVals.mk.injEq]
  norm_num [st100, rad_per_count, math_pi]

/-- C2: in every reachable state of the two-thread system, the wire trace
is (at most) two homogeneous per-thread blocks: the complete round trip
(frame write plus per-byte reads) of one `send_command` finishes before the
other thread's frame write, so the bytes of a concurrently issued PWM
command and encoder poll never interleave on the wire, and each response is
read entirely between its own command's write and the next write. -/
theorem send_command_round_trips_exclusive {s : Sys} (h : Reachable s) :
    TwoBlocks s.trace :=
  (sysInv_reachable h).shape

/-- Witness for C2: after the poll thread's full round trip and the command
thread's subsequent frame write, the concrete trace [true, false] is indeed
two blocks. -/
theorem send_command_round_trips_exclusive_witness : TwoBlocks sysF.trace :=
  send_command_round_trips_exclusive sysF_reachable

/-- C3: if a single read attempt yields zero bytes (timeout) before any
carriage-return terminator was read, `send_command` returns the empty
result — no exception is raised — with the lock released and the frame
written exactly once (the command is dropped, never retried). -/
theorem send_command_timeout_empty (st : DrvState) (cmd : List Char)
    (pre rest : List ReadOutcome)
    (h : ∀ r ∈ pre, ∃ b, r = ReadOutcome.byte b ∧ b < 128 ∧ Char.ofNat b ≠ '\r') :
    (send_command st cmd (pre ++ ReadOutcome.timeout :: rest)).1 = .ok [] ∧
    (send_command st cmd (pre ++ ReadOutcome.timeout :: rest)).2.lock = false ∧
    (send_command st cmd (pre ++ ReadOutcome.timeout :: rest)).2.wire =
      st.wire ++ cmd ++ ['\r'] :=
  ⟨recvLoop_timeout rest pre [] h, rfl, rfl⟩

/-- Witness for C3: one clean byte ('O', 0x4F) followed by a timeout. -/
theorem send_command_timeout_empty_witness :
    (send_command st100 ['e']
        ([ReadOutcome.byte 79] ++ ReadOutcome.timeout :: [])).1 = .ok [] ∧
    (send_command st100 ['e']
        ([ReadOutcome.byte 79] ++ ReadOutcome.timeout :: [])).2.lock = false ∧
    (send_command st100 ['e']
        ([ReadOutcome.byte 79] ++ ReadOutcome.timeout :: [])).2.wire =
      st100.wire ++ ['e'] ++ ['\r'] :=
  send_command_timeout_empty st100 ['e'] [ReadOutcome.byte 79] []
    (by
      intro r hr
      rw [List.mem_singleton] at hr
      subst hr
      exact ⟨79, rfl, by decide, by decide⟩)

/-- C4: once a thread's `send_command` invocation has returned (program
counter 4), the mutex is either free or held by the other thread that is
currently mid-round-trip: the `finally` block released it on every exit
path, so it is available to the next caller. -/
theorem send_command_releases_lock {s : Sys} (t : Bool)
    (h : Reachable s) (h4 : s.pc t = 4) :
    s.lock = none ∨ s.lock = some (!t) := by
  cases hl : s.lock with
  | none => exact Or.inl rfl
  | some u =>
    refine Or.inr ?_
    by_cases hut : u = t
    · subst hut
      have h3 := (sysInv_reachable h).lockPc u hl
      rw [h4] at h3
      rcases h3 with h3 | h3 | h3 <;> exact absurd h3 (by decide)
    · have : u = !t := by cases t <;> cases u <;> revert hut <;> decide
      rw [this]

/-- Witness for C4: after the poll thread's complete round trip the lock is
free. -/
theorem send_command_releases_lock_witness :
    sysD.lock = none ∨ sysD.lock = some (!true) :=
  send_command_releases_lock true sysD_reachable rfl

/-- C5: the code does not clamp or skip the velocity update when the
elapsed time between polls is zero — with `delta_time = 0` the unguarded
division `m1_diff*rads_per_ct/time_diff` raises ZeroDivisionError, which
propagates out of `check_encoders` after the stored timestamp and counters
were already overwritten, and the stored speeds are never written. -/
theorem zero_delta_time_division_raises :
    (check_encoders stT5 5 (bytesOf "10 10\r")).1 = .error .zeroDivisionError ∧
    (check_encoders stT5 5 (bytesOf "10 10\r")).2.m1_spd = stT5.m1_spd ∧
    (check_encoders stT5 5 (bytesOf "10 10\r")).2.last_m1_enc = 10 ∧
    (check_encoders stT5 5 (bytesOf "10 10\r")).2.last_enc_read_time = 5 := by
  have h : (send_encoder_read_command stT5 (bytesOf "10 10\r")).1 =
      .ok (10 :: 10 :: []) := by decide
  rw [check_encoders_zero_dt stT5 5 (bytesOf "10 10\r") 10 10 [] h
        (by norm_num : ((200 : ℤ) : ℚ) ≠ 0) (by norm_num : (5 : ℚ) - 5 = 0)]
  exact ⟨rfl, rfl, rfl, rfl⟩

/-- C6, counterexample: with `encoder_cpr = 0` (the default) the first
successful poll does not propagate NaN/Inf velocities — Python raises on
float division by zero, so `check_encoders` aborts with ZeroDivisionError
from `2*math.pi/self.encoder_cpr` and the stored speeds are never
written. -/
theorem zero_cpr_raises_not_nan :
    (check_encoders stZeroCpr 1 (bytesOf "10 10\r")).1 = .error .zeroDivisionError ∧
    (check_encoders stZeroCpr 1 (bytesOf "10 10\r")).2.m1_spd = stZeroCpr.m1_spd ∧
    (check_encoders stZeroCpr 1 (bytesOf "10 10\r")).2.m2_spd = stZeroCpr.m2_spd := by
  have h : (send_encoder_read_command stZeroCpr (bytesOf "10 10\r")).1 =
      .ok (10 :: 10 :: []) := by decide
  rw [check_encoders_zero_cpr stZeroCpr 1 (bytesOf "10 10\r") 10 10 [] h
        (by norm_num : ((0 : ℤ) : ℚ) = 0)]
  exact ⟨rfl, rfl, rfl⟩

/-- C6, amended: the component indeed never validates `encoder_cpr`; a zero
value surfaces only as an uncaught ZeroDivisionError at the first
successful poll — after the timestamp and raw counters were already
updated — so no velocity value, finite or otherwise, is computed or
published. -/
theorem zero_cpr_uncaught_division :
    (check_encoders stZeroCpr 1 (bytesOf "10 10\r")).1 = .error .zeroDivisionError ∧
    (check_encoders stZeroCpr 1 (bytesOf "10 10\r")).2.last_m1_enc = 10 ∧
    (check_encoders stZeroCpr 1 (bytesOf "10 10\r")).2.last_m2_enc = 10 ∧
    (check_encoders stZeroCpr 1 (bytesOf "10 10\r")).2.last_enc_read_time = 1 ∧
    (check_encoders stZeroCpr 1 (bytesOf "10 10\r")).2.m1_spd = stZeroCpr.m1_spd ∧
    (check_encoders stZeroCpr 1 (bytesOf "10 10\r")).2.m2_spd = stZeroCpr.m2_spd := by
  have h : (send_encoder_read_command stZeroCpr (bytesOf "10 10\r")).1 =
      .ok (10 :: 10 :: []) := by decide
  rw [check_encoders_zero_cpr stZeroCpr 1 (bytesOf "10 10\r") 10 10 [] h
        (by norm_num : ((0 : ℤ) : ℚ) = 0)]
  exact ⟨rfl, rfl, rfl, rfl, rfl, rfl⟩

/-- C7: whenever an encoder poll parses exactly two integers `a, b`, the
counts-per-revolution is nonzero and the elapsed time is nonzero, the
published velocities are the signed count deltas (negative for reverse
rotation) times `rad_per_count = 2*math.pi/encoder_cpr` divided by the
elapsed time, and the published raw counts are `a, b`; at the claim's
concrete figures (previous sample (100,100) at t=0, new sample (150,80) at
t=1, 200 counts per revolution) the two velocities lie within 10⁻⁴ of
1.5708 and -0.6283 radians per second. -/
theorem check_encoders_velocity (st : DrvState) (now : ℚ)
    (reads : List ReadOutcome) (a b : ℤ)
    (hresp : (send_encoder_read_command st reads).1 = .ok [a, b])
    (hcpr : (st.encoder_cpr : ℚ) ≠ 0)
    (hdt : now - st.last_enc_read_time ≠ 0) :
    (check_encoders st now reads).1 =
      .ok (some (⟨((a - st.last_m1_enc : ℤ) : ℚ) * rad_per_count st.encoder_cpr /
                    (now - st.last_enc_read_time),
                  ((b - st.last_m2_enc : ℤ) : ℚ) * rad_per_count st.encoder_cpr /
                    (now - st.last_enc_read_time)⟩,
                 ⟨a, b⟩)) ∧
    |(50 : ℚ) * rad_per_count 200 / 1 - 15708 / 10000| < 1 / 10000 ∧
    |(-20 : ℚ) * rad_per_count 200 / 1 + 6283 / 10000| < 1 / 10000 := by
  refine ⟨?_, ?_, ?_⟩
  · rw [check_encoders_ok st now reads a b [] hresp hcpr hdt]
  · rw [abs_lt]
    constructor <;> norm_num [rad_per_count, math_pi]
  · rw [abs_lt]
    constructor <;> norm_num [rad_per_count, math_pi]

/-- Witness for C7: the claim's own concrete scenario — previous sample
(100, 100) at time 0, response line "150 80" at time 1, 200 counts per
revolution. -/
theorem check_encoders_velocity_witness :
    (check_encoders st100 1 (bytesOf "150 80\r")).1 =
      .ok (some (⟨((150 - st100.last_m1_enc : ℤ) : ℚ) * rad_per_count st100.encoder_cpr /
                    (1 - st100.last_enc_read_time),
                  ((80 - st100.last_m2_enc : ℤ) : ℚ) * rad_per_count st100.encoder_cpr /
                    (1 - st100.last_enc_read_time)⟩,
                 ⟨150, 80⟩)) ∧
    |(50 : ℚ) * rad_per_count 200 / 1 - 15708 / 10000| < 1 / 10000 ∧
    |(-20 : ℚ) * rad_per_count 200 / 1 + 6283 / 10000| < 1 / 10000 :=
  check_encoders_velocity st100 1 (bytesOf "150 80\r") 150 80 (by decide)
    (Int.cast_ne_zero.mpr (by decide)) (by simp [st100])

/-- C8: the outbound counts-per-loop scaler `C/(2*math.pi)` and the inbound
`rad_per_count = 2*math.pi/C` are exact inverses for every positive
counts-per-revolution C, both being computed from the same configured
value. -/
theorem rad_per_count_scaler_inverse (cpr : ℤ) (h : 0 < cpr) :
    rad_per_count cpr * rate_scaler cpr = 1 := by
  have hc : (cpr : ℚ) ≠ 0 := Int.cast_ne_zero.mpr (by omega)
  have hp : (2 : ℚ) * math_pi ≠ 0 := by norm_num [math_pi]
  rw [rad_per_count, rate_scaler, div_mul_div_comm,
    mul_comm ((cpr : ℚ)) (2 * math_pi), div_self (mul_ne_zero hp hc)]

/-- Witness for C8 at the concrete configuration C = 200. -/
theorem rad_per_count_scaler_inverse_witness :
    rad_per_count 200 * rate_scaler 200 = 1 :=
  rad_per_count_scaler_inverse 200 (by decide)

/-- C9, counterexample: with `encoder_cpr = 10` a rate request of 1 rad/s
scales to 10/(2*math.pi) ≈ 1.5915 counts per loop; the code's `int()`
truncation puts 1 on the wire while the rounded-to-integer product is 2,
so the values sent are not the rounded products the claim states. -/
theorem rate_command_not_rounded :
    (motor_command_callback stCpr10 ⟨false, 1, 1⟩ []).wire =
      format_two_int_cmd 'm' 1 1 ++ ['\r'] ∧
    feedback_ints stCpr10.encoder_cpr 1 1 = (1, 1) ∧
    feedback_ints_spec stCpr10.encoder_cpr 1 1 = (2, 2) := by
  have hq : pyIntTrunc (rate_scaler 10) = 1 := by
    rw [pyIntTrunc, if_pos (by norm_num [rate_scaler, math_pi])]
    rw [Int.floor_eq_iff]
    constructor <;> norm_num [rate_scaler, math_pi]
  have hr : round (rate_scaler 10) = 2 := by
    rw [round_eq, Int.floor_eq_iff]
    constructor <;> norm_num [rate_scaler, math_pi]
  refine ⟨?_, ?_, ?_⟩
  · simp [motor_command_callback, send_feedback_motor_command, send_command,
      stCpr10, hq]
  · simp [feedback_ints, stCpr10, hq]
  · simp [feedback_ints_spec, stCpr10, hr]

/-- C9, amended: for every non-PWM (rate) command the wire frame is the
`m` command carrying the products of the requested speeds with
`scaler = encoder_cpr/(2*math.pi)`, converted to integers by Python's
`int()`, i.e. truncated toward zero — not rounded to nearest. -/
theorem rate_command_sends_truncated (st : DrvState) (mc : MotorCommand)
    (reads : List ReadOutcome) (h : mc.is_pwm = false) :
    (motor_command_callback st mc reads).wire =
      st.wire ++ format_two_int_cmd 'm'
        (pyIntTrunc (mc.mot_1_req_rad_sec * rate_scaler st.encoder_cpr))
        (pyIntTrunc (mc.mot_2_req_rad_sec * rate_scaler st.encoder_cpr)) ++ ['\r'] := by
  simp [motor_command_callback, h, send_feedback_motor_command, send_command]

/-- Witness for C9's amended statement at a concrete rate command. -/
theorem rate_command_sends_truncated_witness :
    (motor_command_callback stCpr10 ⟨false, 1, 1⟩ []).wire =
      stCpr10.wire ++ format_two_int_cmd 'm'
        (pyIntTrunc ((1 : ℚ) * rate_scaler stCpr10.encoder_cpr))
        (pyIntTrunc ((1 : ℚ) * rate_scaler stCpr10.encoder_cpr)) ++ ['\r'] :=
  rate_command_sends_truncated stCpr10 ⟨false, 1, 1⟩ [] rfl

/-- C10: an empty response line — the first byte read being the
carriage-return terminator itself — makes `send_command` return the very
empty string it returns on a timeout, so callers cannot distinguish a
legitimately empty acknowledgement from a lost command; an encoder poll
receiving such a line is skipped exactly as when no response arrives:
nothing is published and the encoder state is untouched. -/
theorem empty_line_equals_timeout :
    (send_command st100 ['e'] [ReadOutcome.byte 13]).1 = .ok [] ∧
    (send_command st100 ['e'] [ReadOutcome.timeout]).1 = .ok [] ∧
    (check_encoders st100 1 [ReadOutcome.byte 13]).1 = .ok none ∧
    (check_encoders st100 1 [ReadOutcome.timeout]).1 = .ok none ∧
    (check_encoders st100 1 [ReadOutcome.byte 13]).2 =
      { st100 with lock := false, wire := st100.wire ++ ['e'] ++ ['\r'] } := by
  have h1 : (send_encoder_read_command st100 [ReadOutcome.byte 13]).1 = .ok [] := by
    decide
  have h2 : (send_encoder_read_command st100 [ReadOutcome.timeout]).1 = .ok [] := by
    decide
  rw [check_encoders_resp_empty st100 1 [ReadOutcome.byte 13] h1,
      check_encoders_resp_empty st100 1 [ReadOutcome.timeout] h2]
  exact ⟨by decide, by decide, rfl, rfl, rfl⟩

end SerialMotorDemo
